import Mathlib

/-!
Verification of the offline particle smoothing driver
(`book/smoothing/offline_smoothing.py`).

The driver instantiates a discrete Cox state-space model
  X_t - mu = phi (X_{t-1} - mu) + U_t,  U_t ~ N(0, sigma^2)
  X_0 ~ N(mu, sigma^2 / (1 - phi^2))
with true parameters mu0 = 0, phi0 = 0.9, sigma0 = 0.5, simulates T = 100
observations, and compares five smoothing algorithms for the additive
functional built from `psi0` and `psit`.  We embed the script's pure
numerical definitions and its experiment configuration and prove the
properties claimed of them.
-/

namespace OfflineSmoothing

/-- True parameter `mu0 = 0.` from the driver script. -/
def mu0 : ℝ := 0

/-- True parameter `phi0 = .9` from the driver script. -/
def phi0 : ℝ := 0.9

/-- True parameter `sigma0 = .5` from the driver script. -/
def sigma0 : ℝ := 0.5

/-- `T = 100`, the number of simulated observations. -/
def T : ℕ := 100

/-- `DiscreteCox_with_add_f.upper_bound_log_pt(self, t)`:
`-0.5 * np.log(2 * np.pi * self.sigma**2)` with `self.sigma = sigma0`.
The argument `t` is ignored by the source. -/
noncomputable def upper_bound_log_pt (_t : ℕ) : ℝ :=
  -0.5 * Real.log (2 * Real.pi * sigma0 ^ 2)

/-- Modelled from the spec: the log transition density of the model,
`log p_t(x'|x) = log N(x'; mu0 + phi0*(x - mu0), sigma0^2)`.  The class
`ssms.DiscreteCox` supplying this density lives outside `src/`; its law is
stated in the class docstring (`X_t - mu = phi (X_{t-1}-mu) + U_t`,
`U_t ~ N(0, sigma^2)`) and in the spec's model description. -/
noncomputable def log_pt (x xp : ℝ) : ℝ :=
  -0.5 * Real.log (2 * Real.pi * sigma0 ^ 2)
    - (xp - (mu0 + phi0 * (x - mu0))) ^ 2 / (2 * sigma0 ^ 2)

/-- `psi0(x) = -0.5 / sigma0**2 + (0.5 * (1. - phi0**2) / sigma0**4) * (x - mu0)**2`. -/
noncomputable def psi0 (x : ℝ) : ℝ :=
  -0.5 / sigma0 ^ 2 + (0.5 * (1 - phi0 ^ 2) / sigma0 ^ 4) * (x - mu0) ^ 2

/-- `psit(t, x, xf)`: if `t == 0` then `psi0(x) + psit(1, x, xf)` else
`-0.5 / sigma0**2 + (0.5 / sigma0**4) * ((xf - mu0) - phi0 * (x - mu0))**2`.
The recursion is well-founded: the only recursive call is at `t = 1`,
which takes the non-recursive branch. -/
noncomputable def psit (t : ℤ) (x xf : ℝ) : ℝ :=
  if h : t = 0 then psi0 x + psit 1 x xf
  else -0.5 / sigma0 ^ 2 + (0.5 / sigma0 ^ 4) * ((xf - mu0) - phi0 * (x - mu0)) ^ 2
termination_by (t - 1).natAbs
decreasing_by subst h; decide

/-- Fuel-indexed evaluator of the same recursion, returning `none` when the
fuel runs out; used to state that the recursion depth of `psit` is at most 1. -/
noncomputable def psitFuel (fuel : ℕ) (t : ℤ) (x xf : ℝ) : Option ℝ :=
  match fuel with
  | 0 => none
  | fuel + 1 =>
      if t = 0 then (psitFuel fuel 1 x xf).map (fun v => psi0 x + v)
      else some (-0.5 / sigma0 ^ 2
        + (0.5 / sigma0 ^ 4) * ((xf - mu0) - phi0 * (x - mu0)) ^ 2)

/-- Closed-form log density of the Normal distribution with mean `loc` and
standard deviation `scale`, as computed by `scipy.stats.norm.logpdf`. -/
noncomputable def normLogpdf (loc scale x : ℝ) : ℝ :=
  -Real.log (scale * Real.sqrt (2 * Real.pi)) - (x - loc) ^ 2 / (2 * scale ^ 2)

/-- `log_gamma(x) = stats.norm.logpdf(x, loc=mu0, scale=sigma0/np.sqrt(1.-phi0**2))`. -/
noncomputable def log_gamma (x : ℝ) : ℝ :=
  normLogpdf mu0 (sigma0 / Real.sqrt (1 - phi0 ^ 2)) x

/-- The model's initial law `X_0 ~ N(mu, sigma^2/(1-phi^2))` at the true
parameters: log density of a Normal with mean `mu0` and variance
`sigma0^2 / (1 - phi0^2)`. -/
noncomputable def log_init_law (x : ℝ) : ℝ :=
  normLogpdf mu0 (Real.sqrt (sigma0 ^ 2 / (1 - phi0 ^ 2))) x

/-- The observation sequence handed to `fk_info`: `data[::-1]`. -/
def fk_info_data (data : List ℝ) : List ℝ := data.reverse

/-- `methods` list from the driver. -/
def methods : List String :=
  ["FFBS_ON", "FFBS_ON2", "two-filter_ON", "two-filter_ON_prop", "two-filter_ON2"]

/-- `Ns = [100, 400, 1600, 6400]` from the driver. -/
def Ns : List ℕ := [100, 400, 1600, 6400]

/-- `nruns=10` keyword of the `utils.multiplexer` call. -/
def nruns : ℕ := 10

/-- The keyword arguments of the driver's single `utils.multiplexer` call:
`f`, `method`, `N`, `fk`, `fk_info`, `add_func`, `log_gamma`, `nprocs`, `nruns`. -/
def multiplexer_call_kwargs : List String :=
  ["f", "method", "N", "fk", "fk_info", "add_func", "log_gamma", "nprocs", "nruns"]

/- ## Helper lemmas -/

theorem psit_eq_of_ne (t : ℤ) (x xf : ℝ) (ht : t ≠ 0) :
    psit t x xf
      = -0.5 / sigma0 ^ 2 + (0.5 / sigma0 ^ 4) * ((xf - mu0) - phi0 * (x - mu0)) ^ 2 := by
  rw [psit]
  simp [ht]

theorem psit_zero (x xf : ℝ) : psit 0 x xf = psi0 x + psit 1 x xf := by
  rw [psit]
  simp

/- ## Claims -/

/-- C1: `upper_bound_log_pt(t)` is the time-invariant constant
`-0.5 * log(2 * pi * sigma0^2)`, and for all real states `x`, `xp` this
constant bounds the log transition density
`log N(xp; mu0 + phi0*(x - mu0), sigma0^2)` from above. -/
theorem upper_bound_log_pt_correct :
    (∀ t tp : ℕ, upper_bound_log_pt t = upper_bound_log_pt tp)
    ∧ (∀ t : ℕ, upper_bound_log_pt t = -0.5 * Real.log (2 * Real.pi * sigma0 ^ 2))
    ∧ (∀ (t : ℕ) (x xp : ℝ), log_pt x xp ≤ upper_bound_log_pt t) := by
  refine ⟨fun t tp => rfl, fun t => rfl, fun t x xp => ?_⟩
  have h : 0 ≤ (xp - (mu0 + phi0 * (x - mu0))) ^ 2 / (2 * sigma0 ^ 2) := by
    apply div_nonneg (sq_nonneg _)
    norm_num [sigma0]
  calc log_pt x xp ≤ -0.5 * Real.log (2 * Real.pi * sigma0 ^ 2) := by
        unfold log_pt; linarith
    _ = upper_bound_log_pt t := rfl

/-- C2: `psit` is extensionally equal to the explicit piecewise definition:
`psit 0 x xf = psi0 x + (-0.5/sigma0^2 + (0.5/sigma0^4)*((xf-mu0)-phi0*(x-mu0))^2)`
and for every `t ≠ 0`,
`psit t x xf = -0.5/sigma0^2 + (0.5/sigma0^4)*((xf-mu0)-phi0*(x-mu0))^2`. -/
theorem psit_piecewise (x xf : ℝ) :
    psit 0 x xf
      = psi0 x + (-0.5 / sigma0 ^ 2 + (0.5 / sigma0 ^ 4) * ((xf - mu0) - phi0 * (x - mu0)) ^ 2)
    ∧ ∀ t : ℤ, t ≠ 0 →
      psit t x xf
        = -0.5 / sigma0 ^ 2 + (0.5 / sigma0 ^ 4) * ((xf - mu0) - phi0 * (x - mu0)) ^ 2 := by
  constructor
  · rw [psit_zero, psit_eq_of_ne 1 x xf (by decide)]
  · intro t ht
    exact psit_eq_of_ne t x xf ht

/-- Witness for C2 at `x = 1`, `xf = 2`, `t = 3`. -/
theorem psit_piecewise_witness :
    psit 0 1 2
      = psi0 1 + (-0.5 / sigma0 ^ 2 + (0.5 / sigma0 ^ 4) * ((2 - mu0) - phi0 * (1 - mu0)) ^ 2)
    ∧ psit 3 1 2
      = -0.5 / sigma0 ^ 2 + (0.5 / sigma0 ^ 4) * ((2 - mu0) - phi0 * (1 - mu0)) ^ 2 :=
  ⟨(psit_piecewise 1 2).1, (psit_piecewise 1 2).2 3 (by decide)⟩

/-- C3: `log_gamma` equals the log density of the Normal with mean `mu0` and
standard deviation `sigma0 / sqrt(1 - phi0^2)`, which is exactly the model's
initial law `X_0 ~ N(mu, sigma^2/(1-phi^2))` at the true parameters. -/
theorem log_gamma_eq_init_law : ∀ x : ℝ, log_gamma x = log_init_law x := by
  intro x
  unfold log_gamma log_init_law
  have h1 : (0:ℝ) ≤ sigma0 ^ 2 := sq_nonneg _
  have h2 : Real.sqrt (sigma0 ^ 2 / (1 - phi0 ^ 2))
      = sigma0 / Real.sqrt (1 - phi0 ^ 2) := by
    rw [Real.sqrt_div h1, Real.sqrt_sq (by norm_num [sigma0])]
  rw [h2]

/-- C5: the observation sequence given to `fk_info` is exactly the reversal of
the forward data: it has the same length, and its `i`-th entry is
`data[data.length - 1 - i]` for every `i < data.length`. -/
theorem fk_info_data_spec (data : List ℝ) :
    (fk_info_data data).length = data.length
    ∧ ∀ i : ℕ, i < data.length →
      (fk_info_data data)[i]? = data[data.length - 1 - i]? := by
  refine ⟨List.length_reverse data, fun i hi => ?_⟩
  unfold fk_info_data
  rw [List.getElem?_reverse hi]

/-- Witness for C5 on the concrete list `[1, 2, 3]` at `i = 0`. -/
theorem fk_info_data_spec_witness :
    (fk_info_data [(1:ℝ), 2, 3]).length = [(1:ℝ), 2, 3].length
    ∧ (fk_info_data [(1:ℝ), 2, 3])[0]? = [(1:ℝ), 2, 3][[(1:ℝ), 2, 3].length - 1 - 0]? :=
  ⟨(fk_info_data_spec [1, 2, 3]).1, (fk_info_data_spec [1, 2, 3]).2 0 (by norm_num)⟩

/-- C6: the method names the driver passes to the multiplexer form exactly the
closed enumeration {FFBS_ON, FFBS_ON2, two-filter_ON, two-filter_ON_prop,
two-filter_ON2}, each occurring once. -/
theorem methods_closed_enumeration :
    (∀ m : String, m ∈ methods ↔
      m = "FFBS_ON" ∨ m = "FFBS_ON2" ∨ m = "two-filter_ON"
      ∨ m = "two-filter_ON_prop" ∨ m = "two-filter_ON2")
    ∧ methods.Nodup := by
  constructor
  · intro m
    simp [methods]
  · decide

/-- C7: the driver's experiment configuration matches the spec's scenario
constants: `T = 100`, `mu0 = 0`, `phi0 = 9/10`, `sigma0 = 1/2`,
`Ns = [100, 400, 1600, 6400]` (so `1600` is swept and `FFBS_ON2` is among the
dispatched methods), and `nruns = 10 ≥ 10`. -/
theorem experiment_config_spec :
    T = 100 ∧ mu0 = 0 ∧ phi0 = 9 / 10 ∧ sigma0 = 1 / 2
    ∧ Ns = [100, 400, 1600, 6400] ∧ 1600 ∈ Ns ∧ "FFBS_ON2" ∈ methods
    ∧ nruns = 10 ∧ 10 ≤ nruns :=
  ⟨rfl, rfl, by norm_num [phi0], by norm_num [sigma0], rfl, by decide, by decide,
    rfl, by norm_num [nruns]⟩

/-- C8: the recursion in `psit` terminates with depth at most 1: the
fuel-indexed evaluator already computes `psit` with fuel 2 for every integer
`t` and all real inputs. -/
theorem psit_terminates_depth_one :
    ∀ (t : ℤ) (x xf : ℝ), psitFuel 2 t x xf = some (psit t x xf) := by
  intro t x xf
  by_cases ht : t = 0
  · subst ht
    rw [psit_zero, psit_eq_of_ne 1 x xf (by decide)]
    simp [psitFuel]
  · rw [psit_eq_of_ne t x xf ht]
    simp [psitFuel, ht]

/-- C9: away from `t = 0` the additive functional does not depend on the time
index: for nonzero integers `t1`, `t2` and all reals `x`, `xf`,
`psit t1 x xf = psit t2 x xf`. -/
theorem psit_time_invariant (t1 t2 : ℤ) (h1 : t1 ≠ 0) (h2 : t2 ≠ 0) (x xf : ℝ) :
    psit t1 x xf = psit t2 x xf := by
  rw [psit_eq_of_ne t1 x xf h1, psit_eq_of_ne t2 x xf h2]

/-- Witness for C9 at `t1 = 1`, `t2 = 2`, `x = 0`, `xf = 1`. -/
theorem psit_time_invariant_witness : psit 1 0 1 = psit 2 0 1 :=
  psit_time_invariant 1 2 (by decide) (by decide) 0 1

/-- C10: the per-step functional is bounded below: for `t ≠ 0`,
`psit t x xf ≥ -0.5 / sigma0^2`; `psi0 x ≥ -0.5 / sigma0^2`; and
`psit 0 x xf ≥ -1 / sigma0^2`. -/
theorem psit_lower_bounds (x xf : ℝ) :
    (∀ t : ℤ, t ≠ 0 → -0.5 / sigma0 ^ 2 ≤ psit t x xf)
    ∧ -0.5 / sigma0 ^ 2 ≤ psi0 x
    ∧ -1 / sigma0 ^ 2 ≤ psit 0 x xf := by
  have hb : ∀ t : ℤ, t ≠ 0 → -0.5 / sigma0 ^ 2 ≤ psit t x xf := by
    intro t ht
    rw [psit_eq_of_ne t x xf ht]
    have h : 0 ≤ (0.5 / sigma0 ^ 4) * ((xf - mu0) - phi0 * (x - mu0)) ^ 2 := by
      apply mul_nonneg _ (sq_nonneg _)
      norm_num [sigma0]
    linarith
  have hp : -0.5 / sigma0 ^ 2 ≤ psi0 x := by
    unfold psi0
    have h : 0 ≤ (0.5 * (1 - phi0 ^ 2) / sigma0 ^ 4) * (x - mu0) ^ 2 := by
      apply mul_nonneg _ (sq_nonneg _)
      norm_num [sigma0, phi0]
    linarith
  refine ⟨hb, hp, ?_⟩
  rw [psit_zero]
  have h1 := hb 1 (by decide)
  have h2 : -1 / sigma0 ^ 2 = -0.5 / sigma0 ^ 2 + -0.5 / sigma0 ^ 2 := by
    norm_num [sigma0]
  linarith

/-- Witness for C10 at `x = 0`, `xf = 1`, `t = 5`. -/
theorem psit_lower_bounds_witness :
    -0.5 / sigma0 ^ 2 ≤ psit 5 0 1
    ∧ -0.5 / sigma0 ^ 2 ≤ psi0 0
    ∧ -1 / sigma0 ^ 2 ≤ psit 0 0 1 :=
  ⟨(psit_lower_bounds 0 1).1 5 (by decide), (psit_lower_bounds 0 1).2.1,
    (psit_lower_bounds 0 1).2.2⟩

/-- C4 counterexample: no `seed` keyword appears among the arguments of the
driver's `utils.multiplexer` call, refuting the claim that a seed argument is
passed through the multiplexer call for each (method, N, run). -/
theorem multiplexer_call_has_no_seed : "seed" ∉ multiplexer_call_kwargs := by
  decide

/-- C4 (amended): the driver's multiplexer call passes exactly the keyword
arguments `f`, `method`, `N`, `fk`, `fk_info`, `add_func`, `log_gamma`,
`nprocs`, `nruns`, and no `seed` argument is among them: per-run seeding is
left to the multiplexer rather than supplied by the driver. -/
theorem multiplexer_call_kwargs_spec :
    multiplexer_call_kwargs
      = ["f", "method", "N", "fk", "fk_info", "add_func", "log_gamma", "nprocs", "nruns"]
    ∧ "seed" ∉ multiplexer_call_kwargs :=
  ⟨rfl, by decide⟩

end OfflineSmoothing
